import Mathlib

/-!
Verification development for the Beth Yw? Welsh statistics parser.

Shallow embedding of the entity model (Measure, Area, Areas), the filter
evaluator, and the three importers (`populateFromAuthorityCodeCSV`,
`populateFromWelshStatsJSON`, `populateFromAuthorityByYearCSV`), translated
from the C++ sources (area.cpp, measure.cpp, areas.cpp, bethyw.cpp).

Modelling conventions:
* C++ `std::string` is modelled as a list of byte codes (`List Nat`);
  `BethYw::stringToLower` (built on `::tolower` in the C locale) acts on the
  ASCII letter range 65..90.
* C++ exceptions are modelled by returning the state at the moment of the
  throw together with an `Err` tag distinguishing the thrown exception
  (message / type), so that partial in-place mutation before a throw is
  visible in the model.
* `double` is modelled by `EDouble`: a rational number or one of the IEEE
  non-finite values (+inf, -inf, NaN).  The sign of zero is not modelled;
  it does not affect finiteness of any quotient.
* `std::map` is modelled as an association list; `values` (keyed by year)
  is kept in ascending key order exactly as `std::map` does, since
  `getDifference` reads the first and last entry.
-/

namespace BethYwModel

/-- Byte-string model of `std::string`. -/
abbrev Str := List Nat

/-- Build a byte string from a Lean string literal (ASCII). -/
def strOf (s : String) : Str := s.data.map Char.toNat

/-- One byte through `::tolower` in the C locale (ASCII letters only). -/
def lowN (n : Nat) : Nat := if 65 ≤ n ∧ n ≤ 90 then n + 32 else n

/-- Model of `BethYw::stringToLower`. -/
def lowerStr (s : Str) : Str := s.map lowN

/-- The regex character class `[a-zA-Z]` used by `Area::setName`. -/
def isAlphaN (n : Nat) : Bool := (65 ≤ n && n ≤ 90) || (97 ≤ n && n ≤ 122)

/-- The regex `^[a-zA-Z]{3}$` used by `Area::setName`. -/
def validLang (l : Str) : Bool := l.length == 3 && l.all isAlphaN

/-- Decimal digit test, as used by `std::stoul` / `std::stod`. -/
def isDigitN (n : Nat) : Bool := 48 ≤ n && n ≤ 57

/-- Whitespace as skipped by `std::stoul` / `std::stod`. -/
def isSpaceN (n : Nat) : Bool := n == 32 || (9 ≤ n && n ≤ 13)

/-- Value of a list of decimal digit bytes. -/
def natOfDigits (ds : List Nat) : Nat := ds.foldl (fun a d => a * 10 + (d - 48)) 0

/-- Model of `std::stoul` on the inputs this program feeds it: skips leading
whitespace, then requires at least one decimal digit; trailing junk is
ignored, exactly as `stoul` stops at the first non-digit.  (Sign characters
and non-decimal bases, which no source file of this program produces, are
not modelled.)  Returns `none` where `stoul` throws `std::invalid_argument`. -/
def parseNat (s : Str) : Option Nat :=
  let t := s.dropWhile isSpaceN
  let ds := t.takeWhile isDigitN
  if ds.isEmpty then none else some (natOfDigits ds)

/-- Model of `std::stod` on the decimal forms this program feeds it: optional
whitespace and sign, then digits with an optional fractional part; trailing
junk is ignored.  Returns `none` exactly where `stod` throws
`std::invalid_argument` (no leading numeric prefix, e.g. the empty string). -/
def parseDouble (s : Str) : Option ℚ :=
  let t := s.dropWhile isSpaceN
  let (neg, t1) :=
    match t with
    | 45 :: r => (true, r)
    | 43 :: r => (false, r)
    | _ => (false, t)
  let ip := t1.takeWhile isDigitN
  let r1 := t1.dropWhile isDigitN
  let sgn : ℚ → ℚ := fun q => if neg then -q else q
  match r1 with
  | 46 :: r2 =>
    let fp := r2.takeWhile isDigitN
    if ip.isEmpty && fp.isEmpty then none
    else some (sgn ((natOfDigits ip : ℚ) + (natOfDigits fp : ℚ) / ((10 : ℚ) ^ fp.length)))
  | _ => if ip.isEmpty then none else some (sgn (natOfDigits ip))

/-- Whether `needle` occurs at the start of `hay` (helper for `find`). -/
def matchesAt : Str → Str → Bool
  | [], _ => true
  | _ :: _, [] => false
  | a :: as, b :: bs => a == b && matchesAt as bs

/-- Model of `hay.find(needle) != std::string::npos`. -/
def hasSubstr : Str → Str → Bool
  | [], needle => needle.isEmpty
  | h :: t, needle => matchesAt needle (h :: t) || hasSubstr t needle

/-- Worker for `splitCells`; `cur` is the (reversed) cell being read. -/
def goCells : Str → Str → List Str
  | cur, [] => [cur.reverse]
  | cur, c :: rest =>
    if c = 44 then
      cur.reverse :: (match rest with | [] => [] | _ :: _ => goCells [] rest)
    else goCells (c :: cur) rest

/-- Model of the row splitter `while (getline(row, cell, ','))`: repeated
`getline` with delimiter `','`.  A `getline` at end-of-stream fails, so a
trailing empty cell after a final comma is dropped, while an empty cell
between two commas is kept. -/
def splitCells (s : Str) : List Str :=
  match s with
  | [] => []
  | _ :: _ => goCells [] s

/-- Model of `double`: finite value, the two infinities, or NaN.  (The sign
of a finite zero is not tracked; for division by zero both IEEE zeros give a
non-finite result, which is all the development relies on.) -/
inductive EDouble
  | fin (q : ℚ)
  | pinf
  | ninf
  | nan
deriving DecidableEq, Repr

/-- IEEE subtraction on the model. -/
def EDouble.sub : EDouble → EDouble → EDouble
  | .fin a, .fin b => .fin (a - b)
  | .fin _, .pinf => .ninf
  | .fin _, .ninf => .pinf
  | .pinf, .fin _ => .pinf
  | .ninf, .fin _ => .ninf
  | .pinf, .ninf => .pinf
  | .ninf, .pinf => .ninf
  | _, _ => .nan

/-- IEEE division on the model; a nonzero finite value divided by (unsigned)
zero is infinite, `0/0` is NaN. -/
def EDouble.div : EDouble → EDouble → EDouble
  | .fin a, .fin b =>
    if b = 0 then (if 0 < a then .pinf else if a < 0 then .ninf else .nan)
    else .fin (a / b)
  | .fin _, .pinf => .fin 0
  | .fin _, .ninf => .fin 0
  | .pinf, .fin b => if 0 ≤ b then .pinf else .ninf
  | .ninf, .fin b => if 0 ≤ b then .ninf else .pinf
  | _, _ => .nan

/-- IEEE multiplication on the model. -/
def EDouble.mul : EDouble → EDouble → EDouble
  | .fin a, .fin b => .fin (a * b)
  | .fin a, .pinf => if 0 < a then .pinf else if a < 0 then .ninf else .nan
  | .fin a, .ninf => if 0 < a then .ninf else if a < 0 then .pinf else .nan
  | .pinf, .fin b => if 0 < b then .pinf else if b < 0 then .ninf else .nan
  | .ninf, .fin b => if 0 < b then .ninf else if b < 0 then .pinf else .nan
  | .pinf, .pinf => .pinf
  | .pinf, .ninf => .ninf
  | .ninf, .pinf => .ninf
  | .ninf, .ninf => .pinf
  | _, _ => .nan

/-- Association-list lookup (model of `std::map::find` / `count`). -/
def alookup [DecidableEq κ] (k : κ) : List (κ × α) → Option α
  | [] => none
  | (k', v) :: rest => if k = k' then some v else alookup k rest

/-- Association-list insert-or-assign (model of `map[k] = v` /
`map::insert` on a fresh key). -/
def upsert [DecidableEq κ] (k : κ) (v : α) : List (κ × α) → List (κ × α)
  | [] => [(k, v)]
  | (k', v') :: rest => if k = k' then (k, v) :: rest else (k', v') :: upsert k v rest

/-- Ordered insert-or-assign for the year-keyed `std::map<unsigned, double>`,
which iterates in ascending key order. -/
def insYear (y : Nat) (v : α) : List (Nat × α) → List (Nat × α)
  | [] => [(y, v)]
  | (y', v') :: rest =>
    if y < y' then (y, v) :: (y', v') :: rest
    else if y = y' then (y, v) :: rest
    else (y', v') :: insYear y v rest

/-- The exceptions thrown by the program, distinguished the way the spec's
error kinds distinguish them (exception type plus message). -/
inductive Err
  /-- Model of `runtime_error("Input stream is not good!")` from `Areas::populate`. -/
  | precondition
  /-- Model of `out_of_range` for a column mismatch (`"Cols length mismatch!"`,
  `"Not enough cols!"`, or an uncaught `cols.at`). -/
  | colMismatch
  /-- Model of `runtime_error("Malformed file!")`. -/
  | malformed
  /-- Model of `invalid_argument` from `Area::setName` on a bad language code. -/
  | invalidLanguage
  /-- An uncaught `nlohmann` `type_error` (JSON value of the wrong type). -/
  | typeErr
  /-- Out-of-bounds `std::vector` indexing (undefined behaviour in the
  source; never reached on the inputs the claims exercise). -/
  | oob
deriving DecidableEq, Repr

/-- The Measure class (measure.h / measure.cpp). -/
structure Measure where
  codename : Str
  label : Str
  values : List (Nat × EDouble)
deriving DecidableEq, Repr

/-- Model of `Measure::Measure`: the codename is lowercased at construction. -/
def Measure.make (c l : Str) : Measure := ⟨lowerStr c, l, []⟩

/-- Model of `Measure::setValue`: insert or replace the value for a year. -/
def Measure.setValue (m : Measure) (y : Nat) (v : EDouble) : Measure :=
  { m with values := insYear y v m.values }

/-- Model of `Measure::size`. -/
def Measure.size (m : Measure) : Nat := m.values.length

/-- Model of `Measure::getValue` (throws `out_of_range`, modelled as `none`). -/
def Measure.getValue (m : Measure) (y : Nat) : Option EDouble := alookup y m.values

/-- Model of `Measure::getDifference`: last-year value minus first-year value, 0 if
fewer than two values. -/
def Measure.getDifference (m : Measure) : EDouble :=
  if m.size < 2 then .fin 0
  else EDouble.sub (((m.values.getLast?).map Prod.snd).getD (.fin 0))
                   (((m.values.head?).map Prod.snd).getD (.fin 0))

/-- Model of `Measure::getDifferenceAsPercentage`: the source divides by the
first-year value with no divide-by-zero guard. -/
def Measure.getDifferenceAsPercentage (m : Measure) : EDouble :=
  if m.size < 2 then .fin 0
  else EDouble.mul
    (EDouble.div m.getDifference (((m.values.head?).map Prod.snd).getD (.fin 0)))
    (.fin 100)

/-- Model of `operator+=(Measure&, const Measure&)`: label replaced unconditionally,
then each incoming year value written with `setValue`. -/
def Measure.merge (lhs rhs : Measure) : Measure :=
  { lhs with
    label := rhs.label
    values := rhs.values.foldl (fun acc p => insYear p.1 p.2 acc) lhs.values }

/-- The Area class (area.h / area.cpp). -/
structure Area where
  localAuthorityCode : Str
  names : List (Str × Str)
  measures : List (Str × Measure)
deriving DecidableEq, Repr

/-- Model of `Area::Area`. -/
def Area.make (c : Str) : Area := ⟨c, [], []⟩

/-- Model of `Area::setName`: the language code must match `^[a-zA-Z]{3}$`, else
`invalid_argument` is thrown before any mutation; on success the code is
lowercased and the name inserted or replaced. -/
def Area.setName (a : Area) (lang nm : Str) : Area × Option Err :=
  if validLang lang then ({ a with names := upsert (lowerStr lang) nm a.names }, none)
  else (a, some .invalidLanguage)

/-- Model of `Area::getName`: lookup after lowercasing (throws modelled as `none`). -/
def Area.getName (a : Area) (lang : Str) : Option Str := alookup (lowerStr lang) a.names

/-- Model of `Area::setMeasure`: lowercase the codename, then merge into an existing
Measure with `operator+=` or insert a fresh one.  Declared `noexcept`. -/
def Area.setMeasure (a : Area) (codename : Str) (m : Measure) : Area :=
  match alookup (lowerStr codename) a.measures with
  | some old => { a with measures := upsert (lowerStr codename) (old.merge m) a.measures }
  | none => { a with measures := upsert (lowerStr codename) m a.measures }

/-- The name-copying loop of `operator+=(Area&, const Area&)`; a throw from
`setName` leaves the partially merged state, which the model returns with
the error. -/
def Area.mergeNames : Area → List (Str × Str) → Area × Option Err
  | a, [] => (a, none)
  | a, (k, v) :: rest =>
    match a.setName k v with
    | (a', none) => Area.mergeNames a' rest
    | (a', some e) => (a', some e)

/-- Model of `operator+=(Area&, const Area&)`: copy all names, then all measures,
incoming side taking precedence entry by entry. -/
def Area.merge (lhs rhs : Area) : Area × Option Err :=
  match Area.mergeNames lhs rhs.names with
  | (a', some e) => (a', some e)
  | (a', none) => (rhs.measures.foldl (fun acc p => acc.setMeasure p.1 p.2) a', none)

/-- The Areas container (areas.h / areas.cpp). -/
structure Areas where
  areas : List (Str × Area)
deriving DecidableEq, Repr

/-- The empty container (`Areas::Areas`). -/
def Areas.empty : Areas := ⟨[]⟩

/-- Model of `Areas::setArea`: merge into an existing Area with `operator+=` or
insert a fresh one.  (The merge can only throw on an invalid language code
in the incoming name map, which no API-constructed Area has.) -/
def Areas.setArea (s : Areas) (code : Str) (a : Area) : Areas × Option Err :=
  match alookup code s.areas with
  | some ex =>
    let (m, e) := ex.merge a
    (⟨upsert code m s.areas⟩, e)
  | none => (⟨upsert code a s.areas⟩, none)

/-- Model of `Areas::getExistingNames`: all names of the stored Area, or `[]`. -/
def Areas.getExistingNames (s : Areas) (code : Str) : List Str :=
  match alookup code s.areas with
  | some a => a.names.map Prod.snd
  | none => []

/-- Model of `Areas::checkFilter` (StringFilterSet overload): a null or empty set
matches everything; otherwise each token is lowercased and compared for
equality with the lowercased candidate, and — with `enhancedSearch` — also
searched for as a substring of the candidate and of each lowercased string
of `extraSearch`. -/
def checkFilterStr (filter : Option (List Str)) (x : Str) (enhanced : Bool)
    (extra : List Str) : Bool :=
  match filter with
  | none => true
  | some f =>
    if f.isEmpty then true
    else
      let xl := lowerStr x
      f.any fun t =>
        let tl := lowerStr t
        tl == xl ||
          (enhanced &&
            (hasSubstr xl tl || (extra.map lowerStr).any fun nm => hasSubstr nm tl))

/-- Model of `Areas::checkFilter` (YearFilterTuple overload): null filter or the
sentinel `(0,0)` match everything; otherwise the source compares
`(x-low) <= (high-low)` over `int` (years are far below any overflow). -/
def checkFilterYear (filter : Option (Nat × Nat)) (x : Int) : Bool :=
  match filter with
  | none => true
  | some (lo, hi) =>
    if lo = 0 && hi = 0 then true
    else decide ((x - (lo : Int)) ≤ ((hi : Int) - (lo : Int)))

/-- The column-mapping tags of `BethYw::SourceColumn` (datasets.h). -/
inductive ColTag
  | AUTH_CODE
  | AUTH_NAME_ENG
  | AUTH_NAME_CYM
  | MEASURE_CODE
  | MEASURE_NAME
  | SINGLE_MEASURE_CODE
  | SINGLE_MEASURE_NAME
  | YEAR
  | VALUE
deriving DecidableEq, Repr

/-- Model of `BethYw::SourceColumnMapping`. -/
abbrev Cols := List (ColTag × Str)

/-- A flat JSON value as this program consumes them: a string or a number. -/
inductive JVal
  | jstr (s : Str)
  | jnum (q : ℚ)
deriving DecidableEq, Repr

/-- One record of the `"value"` list of a StatsWales JSON document. -/
abbrev JRec := List (Str × JVal)

/-- The string literal `"eng"`. -/
def engS : Str := strOf "eng"

/-- The string literal `"cym"`. -/
def cymS : Str := strOf "cym"

/-- Model of `cols.at(tag)`: a missing tag throws `std::out_of_range`, classified as
a column-mismatch error. -/
def colAt (cols : Cols) (t : ColTag) : Except Err Str :=
  match alookup t cols with
  | some v => .ok v
  | none => .error .colMismatch

/-- Model of `std::string s = data[key]`: a missing key makes `operator[]` produce a
JSON null and the string assignment throw an uncaught `type_error`, as does
a non-string value. -/
def getStrField (rec : JRec) (key : Str) : Except Err Str :=
  match alookup key rec with
  | some (.jstr v) => .ok v
  | _ => .error .typeErr

/-- The per-record parsing block of `Areas::populateFromWelshStatsJSON`
(inside its try/catch): extract code and English name, the measure code and
name (per-record or from the single-measure mapping entries), the year via
`stoul`, and the value as a native number or a numeric string via `stod`.
`out_of_range` from `cols.at` is caught and rethrown as the column-mismatch
error; `stoul`/`stod` failures become `runtime_error("Malformed file!")`. -/
def parseJSONRecord (cols : Cols) (rec : JRec) :
    Except Err (Str × Str × Str × Str × Nat × ℚ) := do
  let authKey ← colAt cols .AUTH_CODE
  let code ← getStrField rec authKey
  let nameKey ← colAt cols .AUTH_NAME_ENG
  let aname ← getStrField rec nameKey
  let mpair ←
    if (alookup ColTag.MEASURE_CODE cols).isSome then do
      let mk ← colAt cols .MEASURE_CODE
      let mc ← getStrField rec mk
      let mnk ← colAt cols .MEASURE_NAME
      let mn ← getStrField rec mnk
      pure (mc, mn)
    else do
      let mc ← colAt cols .SINGLE_MEASURE_CODE
      let mn ← colAt cols .SINGLE_MEASURE_NAME
      pure (mc, mn)
  let yearKey ← colAt cols .YEAR
  let ys ← getStrField rec yearKey
  let year ←
    match parseNat ys with
    | some y => Except.ok y
    | none => Except.error Err.malformed
  let valKey ← colAt cols .VALUE
  let value ←
    match alookup valKey rec with
    | some (.jnum q) => Except.ok q
    | some (.jstr vs) =>
      match parseDouble vs with
      | some q => Except.ok q
      | none => Except.error Err.malformed
    | none => Except.error Err.typeErr
  pure (code, aname, mpair.1, mpair.2, year, value)

/-- The body of the per-record loop of `Areas::populateFromWelshStatsJSON`:
parse the record, then — area filter permitting — build the Area with its
English name, build the Measure if the measure filter passes, attach the
value only if the year filter passes, and merge via `setArea`. -/
def stepJSON (cols : Cols) (aF mF : Option (List Str)) (yF : Option (Nat × Nat))
    (s : Areas) (rec : JRec) : Areas × Option Err :=
  match parseJSONRecord cols rec with
  | .error e => (s, some e)
  | .ok (code, aname, mcode, mname, year, value) =>
    let existingNames := s.getExistingNames code ++ [aname]
    if checkFilterStr aF code true existingNames then
      match (Area.make code).setName engS aname with
      | (_, some e) => (s, some e)
      | (area1, none) =>
        let area2 :=
          if checkFilterStr mF mcode false [] then
            let meas := Measure.make mcode mname
            let meas :=
              if checkFilterYear yF (year : Int) then meas.setValue year (.fin value)
              else meas
            area1.setMeasure mcode meas
          else area1
        s.setArea code area2
    else (s, none)

/-- The record loop of `Areas::populateFromWelshStatsJSON`: a thrown
exception propagates, aborting the rest of the loop. -/
def runJSON (cols : Cols) (aF mF : Option (List Str)) (yF : Option (Nat × Nat)) :
    Areas → List JRec → Areas × Option Err
  | s, [] => (s, none)
  | s, r :: rest =>
    match stepJSON cols aF mF yF s r with
    | (s', none) => runJSON cols aF mF yF s' rest
    | (s', some e) => (s', some e)

/-- Model of `Areas::populateFromWelshStatsJSON`: `is >> j` failing (including on an
empty stream) throws `runtime_error("Malformed file!")`; otherwise the
records of `j["value"]` are processed in order. -/
def popWelshStatsJSON (doc : Except Unit (List JRec)) (cols : Cols)
    (aF mF : Option (List Str)) (yF : Option (Nat × Nat)) (s : Areas) :
    Areas × Option Err :=
  match doc with
  | .error _ => (s, some .malformed)
  | .ok recs => runJSON cols aF mF yF s recs

/-- The body of the per-row loop of `Areas::populateFromAuthorityCodeCSV`:
split the row, require at least three cells, and — area filter permitting,
matching also against the two names — build the Area with both names and
merge it via `setArea`. -/
def stepAuthRow (aF : Option (List Str)) (s : Areas) (row : Str) :
    Areas × Option Err :=
  let cells := splitCells row
  if cells.length < 3 then (s, some .malformed)
  else
    match cells with
    | c0 :: c1 :: c2 :: _ =>
      if checkFilterStr aF c0 true [c1, c2] then
        match (Area.make c0).setName engS c1 with
        | (_, some e) => (s, some e)
        | (a1, none) =>
          match a1.setName cymS c2 with
          | (_, some e) => (s, some e)
          | (a2, none) => s.setArea c0 a2
      else (s, none)
    | _ => (s, some .malformed)

/-- The row loop of `Areas::populateFromAuthorityCodeCSV`. -/
def runAuthRows (aF : Option (List Str)) : Areas → List Str → Areas × Option Err
  | s, [] => (s, none)
  | s, r :: rest =>
    match stepAuthRow aF s r with
    | (s', none) => runAuthRows aF s' rest
    | (s', some e) => (s', some e)

/-- Model of `Areas::populateFromAuthorityCodeCSV`: a failed header `getline` (empty
stream) throws `runtime_error("Malformed file!")`; a header whose column
count differs from the mapping's size throws
`out_of_range("Cols length mismatch!")`; then rows are processed in order. -/
def popAuthorityCodeCSV (lines : List Str) (cols : Cols)
    (aF : Option (List Str)) (s : Areas) : Areas × Option Err :=
  match lines with
  | [] => (s, some .malformed)
  | header :: rows =>
    if (splitCells header).length ≠ cols.length then (s, some .colMismatch)
    else runAuthRows aF s rows

/-- The inner column loop of `Areas::populateFromAuthorityByYearCSV`: for
each value cell, parse the corresponding header token with `stoul` (failure
aborts with `runtime_error("Malformed file!")`), and if the year passes the
year filter parse the cell with `stod` (failure aborts likewise) and record
the value.  Indexing `fileCols[i]` past the header is out of bounds in the
source. -/
def fillValues (yF : Option (Nat × Nat)) : Measure → List Str → List Str →
    Except Err Measure
  | m, _, [] => .ok m
  | _, [], _ :: _ => .error .oob
  | m, hc :: hcs, v :: vs =>
    match parseNat hc with
    | none => .error .malformed
    | some year =>
      if checkFilterYear yF (year : Int) then
        match parseDouble v with
        | none => .error .malformed
        | some q => fillValues yF (m.setValue year (.fin q)) hcs vs
      else fillValues yF m hcs vs

/-- The body of the per-row loop of `Areas::populateFromAuthorityByYearCSV`:
split the row, and — area filter permitting, matching also against names
already stored for that code — build the Area; if the single measure passes
the measure filter, fill its values from the row and attach it; merge via
`setArea` either way. -/
def stepYearRow (cols : Cols) (aF mF : Option (List Str))
    (yF : Option (Nat × Nat)) (fileCols : List Str) (s : Areas) (row : Str) :
    Areas × Option Err :=
  let data := splitCells row
  match data with
  | [] => (s, some .oob)
  | d0 :: vs =>
    if checkFilterStr aF d0 true (s.getExistingNames d0) then
      match alookup ColTag.SINGLE_MEASURE_CODE cols with
      | none => (s, some .colMismatch)
      | some smc =>
        if checkFilterStr mF smc false [] then
          match alookup ColTag.SINGLE_MEASURE_NAME cols with
          | none => (s, some .colMismatch)
          | some smn =>
            match fillValues yF (Measure.make smc smn) (fileCols.drop 1) vs with
            | .error e => (s, some e)
            | .ok meas => s.setArea d0 ((Area.make d0).setMeasure smc meas)
        else s.setArea d0 (Area.make d0)
    else (s, none)

/-- The row loop of `Areas::populateFromAuthorityByYearCSV`. -/
def runYearRows (cols : Cols) (aF mF : Option (List Str))
    (yF : Option (Nat × Nat)) (fileCols : List Str) :
    Areas → List Str → Areas × Option Err
  | s, [] => (s, none)
  | s, r :: rest =>
    match stepYearRow cols aF mF yF fileCols s r with
    | (s', none) => runYearRows cols aF mF yF fileCols s' rest
    | (s', some e) => (s', some e)

/-- Model of `Areas::populateFromAuthorityByYearCSV`: a failed header `getline`
(empty stream) throws `runtime_error("Malformed file!")`; a mapping whose
size is not 3 throws `out_of_range("Cols length mismatch!")`; a header whose
first column differs from the mapping's authority-code header throws
`runtime_error("Malformed file!")`; then rows are processed in order. -/
def popAuthorityByYearCSV (lines : List Str) (cols : Cols)
    (aF mF : Option (List Str)) (yF : Option (Nat × Nat)) (s : Areas) :
    Areas × Option Err :=
  match lines with
  | [] => (s, some .malformed)
  | header :: rows =>
    let fileCols := splitCells header
    if cols.length ≠ 3 then (s, some .colMismatch)
    else
      match alookup ColTag.AUTH_CODE cols with
      | none => (s, some .colMismatch)
      | some authHdr =>
        match fileCols with
        | [] => (s, some .oob)
        | h0 :: _ =>
          if h0 ≠ authHdr then (s, some .malformed)
          else runYearRows cols aF mF yF fileCols s rows

/-- Model of `BethYw::SourceDataType`. -/
inductive SourceDataType
  | AuthorityCodeCSV
  | WelshStatsJSON
  | AuthorityByYearCSV
deriving DecidableEq, Repr

/-- The observable state of the `std::istream` handed to `populate`:
whether `is.good()` holds at call time, the lines `getline` will yield, and
the result `is >> j` would produce (a failed JSON parse for an empty or
malformed stream). -/
structure IStream where
  good : Bool
  lines : List Str
  doc : Except Unit (List JRec)

/-- Model of `Areas::populate` (filter overload): throws
`runtime_error("Input stream is not good!")` when `is.good()` is false,
before anything is read, then dispatches on the data type. -/
def Areas.populate (s : Areas) (is : IStream) (t : SourceDataType) (cols : Cols)
    (aF mF : Option (List Str)) (yF : Option (Nat × Nat)) : Areas × Option Err :=
  if is.good = false then (s, some .precondition)
  else
    match t with
    | .AuthorityCodeCSV => popAuthorityCodeCSV is.lines cols aF s
    | .WelshStatsJSON => popWelshStatsJSON is.doc cols aF mF yF s
    | .AuthorityByYearCSV => popAuthorityByYearCSV is.lines cols aF mF yF s

/-- The value stored in a container for `(code, measure codename, year)`,
if any; used to state that an import step recorded nothing for a year. -/
def priorValue (s : Areas) (code mcode : Str) (year : Nat) : Option EDouble :=
  match alookup code s.areas with
  | none => none
  | some a =>
    match alookup (lowerStr mcode) a.measures with
    | none => none
    | some m => alookup year m.values

/-! ### Helper lemmas about the map model -/

theorem alookup_upsert [DecidableEq κ] (k q : κ) (v : α) (m : List (κ × α)) :
    alookup q (upsert k v m) = if q = k then some v else alookup q m := by
  induction m with
  | nil => simp [upsert, alookup]
  | cons p rest ih =>
    obtain ⟨k', v'⟩ := p
    by_cases hk : k = k'
    · subst hk
      by_cases hq : q = k <;> simp [upsert, alookup, hq]
    · by_cases hq : q = k'
      · subst hq
        simp [upsert, alookup, hk, Ne.symm hk]
      · simp [upsert, alookup, hk, hq, ih]

theorem alookup_eq_none_of_not_mem [DecidableEq κ] (k : κ) (m : List (κ × α))
    (h : k ∉ m.map Prod.fst) : alookup k m = none := by
  induction m with
  | nil => rfl
  | cons p rest ih =>
    simp only [List.map_cons, List.mem_cons] at h
    push_neg at h
    simp [alookup, h.1, ih h.2]

theorem alookup_insYear (y q : Nat) (v : α) (l : List (Nat × α)) :
    alookup q (insYear y v l) = if q = y then some v else alookup q l := by
  induction l with
  | nil => simp [insYear, alookup]
  | cons p rest ih =>
    obtain ⟨y', v'⟩ := p
    rcases Nat.lt_trichotomy y y' with hlt | heq | hgt
    · simp only [insYear, if_pos hlt]
      by_cases hq : q = y <;> simp [alookup, hq]
    · subst heq
      simp only [insYear, lt_irrefl, if_neg (lt_irrefl y), if_pos rfl]
      by_cases hq : q = y <;> simp [alookup, hq]
    · have h1 : ¬ y < y' := Nat.not_lt.mpr (Nat.le_of_lt hgt)
      have h2 : y ≠ y' := Nat.ne_of_gt hgt
      simp only [insYear, if_neg h1, if_neg h2]
      by_cases hq : q = y'
      · subst hq
        have : q ≠ y := Nat.ne_of_lt hgt
        simp [alookup, this]
      · simp [alookup, hq, ih]

theorem alookup_foldl_insYear_of_none (vs : List (Nat × α)) (init : List (Nat × α))
    (q : Nat) (h : alookup q vs = none) :
    alookup q (vs.foldl (fun acc p => insYear p.1 p.2 acc) init) = alookup q init := by
  induction vs generalizing init with
  | nil => rfl
  | cons p rest ih =>
    obtain ⟨y, v⟩ := p
    simp only [alookup] at h
    by_cases hq : q = y
    · simp [hq] at h
    · simp only [if_neg hq] at h
      simp only [List.foldl_cons]
      rw [ih _ h, alookup_insYear, if_neg hq]

theorem alookup_foldl_insYear_of_some (vs : List (Nat × α)) (init : List (Nat × α))
    (q : Nat) (v : α) (hnd : (vs.map Prod.fst).Nodup) (h : alookup q vs = some v) :
    alookup q (vs.foldl (fun acc p => insYear p.1 p.2 acc) init) = some v := by
  induction vs generalizing init with
  | nil => simp [alookup] at h
  | cons p rest ih =>
    obtain ⟨y, w⟩ := p
    simp only [List.map_cons, List.nodup_cons] at hnd
    simp only [alookup] at h
    by_cases hq : q = y
    · subst hq
      rw [if_pos rfl] at h
      injection h with h
      subst h
      simp only [List.foldl_cons]
      rw [alookup_foldl_insYear_of_none _ _ _
            (alookup_eq_none_of_not_mem _ _ hnd.1),
          alookup_insYear, if_pos rfl]
    · simp only [if_neg hq] at h
      simp only [List.foldl_cons]
      exact ih _ hnd.2 h

theorem lowN_idem (n : Nat) : lowN (lowN n) = lowN n := by
  unfold lowN
  split_ifs <;> omega

theorem lowerStr_idem (s : Str) : lowerStr (lowerStr s) = lowerStr s := by
  induction s with
  | nil => rfl
  | cons c rest ih =>
    simp only [lowerStr, List.map_cons] at ih ⊢
    rw [lowN_idem]
    exact congrArg _ ih

/-! ### Helper lemmas about Measure and Area merging -/

theorem Measure.merge_label (m₀ m₁ : Measure) : (m₀.merge m₁).label = m₁.label := rfl

theorem Measure.merge_codename (m₀ m₁ : Measure) :
    (m₀.merge m₁).codename = m₀.codename := rfl

theorem Measure.merge_values_of_some (m₀ m₁ : Measure) (y : Nat) (v : EDouble)
    (hnd : (m₁.values.map Prod.fst).Nodup) (h : alookup y m₁.values = some v) :
    alookup y (m₀.merge m₁).values = some v :=
  alookup_foldl_insYear_of_some _ _ _ _ hnd h

theorem Measure.merge_values_of_none (m₀ m₁ : Measure) (y : Nat)
    (h : alookup y m₁.values = none) :
    alookup y (m₀.merge m₁).values = alookup y m₀.values :=
  alookup_foldl_insYear_of_none _ _ _ h

theorem Area.setMeasure_names (a : Area) (c : Str) (m : Measure) :
    (a.setMeasure c m).names = a.names := by
  unfold Area.setMeasure
  cases alookup (lowerStr c) a.measures <;> rfl

theorem Area.setMeasure_code (a : Area) (c : Str) (m : Measure) :
    (a.setMeasure c m).localAuthorityCode = a.localAuthorityCode := by
  unfold Area.setMeasure
  cases alookup (lowerStr c) a.measures <;> rfl

theorem Area.setName_measures (a : Area) (l n : Str) :
    ((a.setName l n).1).measures = a.measures := by
  unfold Area.setName
  split <;> rfl

theorem Area.setName_code (a : Area) (l n : Str) :
    ((a.setName l n).1).localAuthorityCode = a.localAuthorityCode := by
  unfold Area.setName
  split <;> rfl

theorem Area.mergeNames_snd_none (ns : List (Str × Str)) (a : Area)
    (h : ∀ p ∈ ns, validLang p.1 = true) : (Area.mergeNames a ns).2 = none := by
  induction ns generalizing a with
  | nil => rfl
  | cons p rest ih =>
    obtain ⟨k, v⟩ := p
    have hk : validLang k = true := h (k, v) (List.mem_cons_self _ _)
    simp only [Area.mergeNames, Area.setName, if_pos hk]
    exact ih _ (fun q hq => h q (List.mem_cons_of_mem _ hq))

theorem Area.mergeNames_measures (ns : List (Str × Str)) (a : Area) :
    ((Area.mergeNames a ns).1).measures = a.measures := by
  induction ns generalizing a with
  | nil => rfl
  | cons p rest ih =>
    obtain ⟨k, v⟩ := p
    by_cases hk : validLang k
    · simp only [Area.mergeNames, Area.setName, if_pos hk]
      rw [ih]
    · simp only [Area.mergeNames, Area.setName, if_neg hk]

theorem Area.mergeNames_names_of_not_mem (ns : List (Str × Str)) (a : Area) (q : Str)
    (hval : ∀ p ∈ ns, validLang p.1 = true)
    (hlow : ∀ p ∈ ns, lowerStr p.1 = p.1)
    (h : q ∉ ns.map Prod.fst) :
    alookup q ((Area.mergeNames a ns).1).names = alookup q a.names := by
  induction ns generalizing a with
  | nil => rfl
  | cons p rest ih =>
    obtain ⟨k, v⟩ := p
    simp only [List.map_cons, List.mem_cons] at h
    push_neg at h
    have hk : validLang k = true := hval (k, v) (List.mem_cons_self _ _)
    have hlk : lowerStr k = k := hlow (k, v) (List.mem_cons_self _ _)
    simp only [Area.mergeNames, Area.setName, if_pos hk]
    rw [ih _ (fun p hp => hval p (List.mem_cons_of_mem _ hp))
          (fun p hp => hlow p (List.mem_cons_of_mem _ hp)) h.2]
    simp only [hlk]
    rw [alookup_upsert, if_neg h.1]

theorem Area.mergeNames_names_of_some (ns : List (Str × Str)) (a : Area) (q v : Str)
    (hval : ∀ p ∈ ns, validLang p.1 = true)
    (hlow : ∀ p ∈ ns, lowerStr p.1 = p.1)
    (hnd : (ns.map Prod.fst).Nodup)
    (h : alookup q ns = some v) :
    alookup q ((Area.mergeNames a ns).1).names = some v := by
  induction ns generalizing a with
  | nil => simp [alookup] at h
  | cons p rest ih =>
    obtain ⟨k, w⟩ := p
    simp only [List.map_cons, List.nodup_cons] at hnd
    have hk : validLang k = true := hval (k, w) (List.mem_cons_self _ _)
    have hlk : lowerStr k = k := hlow (k, w) (List.mem_cons_self _ _)
    simp only [alookup] at h
    by_cases hq : q = k
    · subst hq
      rw [if_pos rfl] at h
      injection h with h
      subst h
      simp only [Area.mergeNames, Area.setName, if_pos hk]
      rw [Area.mergeNames_names_of_not_mem _ _ _
            (fun p hp => hval p (List.mem_cons_of_mem _ hp))
            (fun p hp => hlow p (List.mem_cons_of_mem _ hp)) hnd.1]
      simp only [hlk]
      rw [alookup_upsert, if_pos rfl]
    · simp only [if_neg hq] at h
      simp only [Area.mergeNames, Area.setName, if_pos hk]
      exact ih _ (fun p hp => hval p (List.mem_cons_of_mem _ hp))
        (fun p hp => hlow p (List.mem_cons_of_mem _ hp)) hnd.2 h

theorem foldl_setMeasure_names (ms : List (Str × Measure)) (a : Area) :
    ((ms.foldl (fun acc p => acc.setMeasure p.1 p.2) a)).names = a.names := by
  induction ms generalizing a with
  | nil => rfl
  | cons p rest ih => simp only [List.foldl_cons]; rw [ih, Area.setMeasure_names]

theorem foldl_setMeasure_of_not_mem (ms : List (Str × Measure)) (a : Area) (q : Str)
    (hlow : ∀ p ∈ ms, lowerStr p.1 = p.1)
    (h : q ∉ ms.map Prod.fst) :
    alookup q ((ms.foldl (fun acc p => acc.setMeasure p.1 p.2) a)).measures =
      alookup q a.measures := by
  induction ms generalizing a with
  | nil => rfl
  | cons p rest ih =>
    obtain ⟨k, m⟩ := p
    simp only [List.map_cons, List.mem_cons] at h
    push_neg at h
    have hlk : lowerStr k = k := hlow (k, m) (List.mem_cons_self _ _)
    simp only [List.foldl_cons]
    rw [ih _ (fun p hp => hlow p (List.mem_cons_of_mem _ hp)) h.2]
    unfold Area.setMeasure
    simp only [hlk]
    cases alookup k a.measures <;>
      simp [alookup_upsert, h.1]

theorem foldl_setMeasure_of_some (ms : List (Str × Measure)) (a : Area) (q : Str)
    (m : Measure)
    (hlow : ∀ p ∈ ms, lowerStr p.1 = p.1)
    (hnd : (ms.map Prod.fst).Nodup)
    (h : alookup q ms = some m) :
    alookup q ((ms.foldl (fun acc p => acc.setMeasure p.1 p.2) a)).measures =
      (match alookup q a.measures with
       | some m₀ => some (m₀.merge m)
       | none => some m) := by
  induction ms generalizing a with
  | nil => simp [alookup] at h
  | cons p rest ih =>
    obtain ⟨k, w⟩ := p
    simp only [List.map_cons, List.nodup_cons] at hnd
    have hlk : lowerStr k = k := hlow (k, w) (List.mem_cons_self _ _)
    simp only [alookup] at h
    by_cases hq : q = k
    · subst hq
      rw [if_pos rfl] at h
      injection h with h
      subst h
      simp only [List.foldl_cons]
      rw [foldl_setMeasure_of_not_mem _ _ _
            (fun p hp => hlow p (List.mem_cons_of_mem _ hp)) hnd.1]
      unfold Area.setMeasure
      simp only [hlk]
      cases alookup q a.measures <;>
        simp [alookup_upsert]
    · simp only [if_neg hq] at h
      simp only [List.foldl_cons]
      rw [ih _ (fun p hp => hlow p (List.mem_cons_of_mem _ hp)) hnd.2 h]
      unfold Area.setMeasure
      simp only [hlk]
      cases alookup k a.measures <;>
        simp [alookup_upsert, hq]

theorem Area.merge_snd_none (lhs rhs : Area)
    (h : ∀ p ∈ rhs.names, validLang p.1 = true) : (lhs.merge rhs).2 = none := by
  have h2 := Area.mergeNames_snd_none rhs.names lhs h
  unfold Area.merge
  cases hm : Area.mergeNames lhs rhs.names with
  | mk a' e =>
    rw [hm] at h2
    cases e with
    | none => simp
    | some ex => simp at h2

theorem Areas.setArea_snd_none (s : Areas) (code : Str) (a : Area)
    (h : ∀ p ∈ a.names, validLang p.1 = true) : (s.setArea code a).2 = none := by
  unfold Areas.setArea
  cases hex : alookup code s.areas with
  | none => rfl
  | some ex =>
    have h2 := Area.merge_snd_none ex a h
    cases hm : ex.merge a with
    | mk m e =>
      rw [hm] at h2
      simp only at h2
      subst h2
      simp [hm]

theorem validLang_engS : validLang engS = true := by decide

theorem validLang_cymS : validLang cymS = true := by decide

theorem lowerStr_engS : lowerStr engS = engS := by decide

theorem lowerStr_cymS : lowerStr cymS = cymS := by decide

theorem Area.setName_eq_of_valid (a : Area) (l n : Str) (h : validLang l = true) :
    a.setName l n = ({ a with names := upsert (lowerStr l) n a.names }, none) := by
  simp [Area.setName, h]

theorem alookup_eq_none_iff [DecidableEq κ] (k : κ) (m : List (κ × α)) :
    alookup k m = none ↔ k ∉ m.map Prod.fst := by
  induction m with
  | nil => simp [alookup]
  | cons p rest ih =>
    obtain ⟨k', v⟩ := p
    by_cases hk : k = k' <;> simp [alookup, hk, ih]

/-! ### Claim C1 -/

/-- Claim C1 states that a non-sentinel year filter `(low, high)` accepts a
year `x` iff `low ≤ x ≤ high`, in particular that `(2010, 2012)` rejects
2009.  Evaluating the code at that input: `Areas::checkFilter` only tests
`(x-low) <= (high-low)` and so accepts 2009, contradicting both the claim
and the function's own documentation; the remaining listed cases do behave
as claimed. -/
theorem claimC1_year_filter_code_eval :
    checkFilterYear (some (2010, 2012)) 2009 = true ∧
    checkFilterYear (some (2010, 2012)) 2010 = true ∧
    checkFilterYear (some (2010, 2012)) 2011 = true ∧
    checkFilterYear (some (2010, 2012)) 2012 = true ∧
    checkFilterYear (some (2010, 2012)) 2013 = false ∧
    checkFilterYear none 0 = true ∧
    checkFilterYear (some (0, 0)) 0 = true := by
  decide

/-! ### Claim C2 -/

/-- Claim C2 states that `getDifferenceAsPercentage` returns 0 when there
are fewer than two years, and also returns 0 (rather than a non-finite
value) when dividing by the earliest value would divide by zero.
Evaluating the code: with values `{2010 ↦ 0, 2015 ↦ 10}` the source
computes `(10 - 0) / 0 * 100`, which under IEEE double semantics is `+inf`,
not 0 — there is no divide-by-zero guard in `getDifferenceAsPercentage`.
The fewer-than-two-years half does hold. -/
theorem claimC2_divide_by_zero_code_eval :
    (Measure.mk (strOf "pop") (strOf "Population")
      [(2010, EDouble.fin 0), (2015, EDouble.fin 10)]).getDifferenceAsPercentage
        = EDouble.pinf ∧
    EDouble.pinf ≠ EDouble.fin 0 ∧
    (Measure.mk (strOf "pop") (strOf "Population")
      [(2010, EDouble.fin 5)]).getDifferenceAsPercentage = EDouble.fin 0 ∧
    (Measure.mk (strOf "pop") (strOf "Population")
      []).getDifferenceAsPercentage = EDouble.fin 0 := by
  refine ⟨?_, by decide, ?_, ?_⟩ <;>
    norm_num [Measure.getDifferenceAsPercentage, Measure.getDifference,
      Measure.size, EDouble.sub, EDouble.div, EDouble.mul]

/-! ### Claim C8 -/

/-- Claim C8: for every valid language code `L` (exactly three alphabetic
characters, any case) and every name `N`, `setName L N` succeeds and a
subsequent `getName L'` returns `N` for every `L'` equal to `L` up to
letter case (i.e. with the same lowercasing). -/
theorem claimC8_setName_getName_roundtrip (a : Area) (L Lp N : Str)
    (hv : validLang L = true) (he : lowerStr Lp = lowerStr L) :
    ∃ a', a.setName L N = (a', none) ∧ a'.getName Lp = some N := by
  refine ⟨{ a with names := upsert (lowerStr L) N a.names }, ?_, ?_⟩
  · exact Area.setName_eq_of_valid a L N hv
  · simp [Area.getName, he, alookup_upsert]

/-- Witness for C8 at `L = "Eng"`, `L' = "ENG"`, `N = "Wales"`. -/
theorem claimC8_witness :
    validLang (strOf "Eng") = true ∧
    lowerStr (strOf "ENG") = lowerStr (strOf "Eng") ∧
    ∃ a', (Area.make (strOf "W1")).setName (strOf "Eng") (strOf "Wales") = (a', none) ∧
      a'.getName (strOf "ENG") = some (strOf "Wales") :=
  ⟨by decide, by decide,
    claimC8_setName_getName_roundtrip (Area.make (strOf "W1")) (strOf "Eng")
      (strOf "ENG") (strOf "Wales") (by decide) (by decide)⟩

/-! ### Claim C9 -/

/-- Claim C9: for every language code that is not exactly three alphabetic
characters, `Area::setName` throws the invalid-language-code error and the
Area is returned completely unchanged (the regex check precedes any
mutation in the source). -/
theorem claimC9_invalid_language_rejected_without_mutation (a : Area)
    (lang nm : Str) (h : validLang lang = false) :
    a.setName lang nm = (a, some Err.invalidLanguage) := by
  simp [Area.setName, h]

/-- Witness for C9 at the two-letter code `"en"`. -/
theorem claimC9_witness :
    validLang (strOf "en") = false ∧
    (Area.make (strOf "W1")).setName (strOf "en") (strOf "Wales")
      = (Area.make (strOf "W1"), some Err.invalidLanguage) :=
  ⟨by decide,
    claimC9_invalid_language_rejected_without_mutation (Area.make (strOf "W1"))
      (strOf "en") (strOf "Wales") (by decide)⟩

/-! ### Claim C7 -/

/-- Counterexample to claim C7 as stated: an empty but otherwise readable
stream (`good()` still true, nothing to read) is not rejected by the
distinct precondition-failure error; `populate` dispatches to the importer,
whose header `getline` fails and throws `runtime_error("Malformed file!")`
— a malformed-content error, not the precondition error. -/
theorem claimC7_counterexample_empty_stream :
    Areas.empty.populate ⟨true, [], .error ()⟩ .AuthorityCodeCSV
        [(ColTag.AUTH_CODE, strOf "code")] none none none
      = (Areas.empty, some Err.malformed) ∧
    Err.malformed ≠ Err.precondition :=
  ⟨rfl, by decide⟩

/-- Amended claim C7: a stream that is unreadable or unopened (`is.good()`
false at call time) makes `populate` fail with the distinct
precondition-failure error before anything is read, for all three importer
formats; an empty but readable stream instead proceeds into the importer
and fails its header (or document) read with a malformed-content error. -/
theorem claimC7_amended_stream_pre_check :
    (∀ (s : Areas) (is : IStream) (t : SourceDataType) (cols : Cols)
        (aF mF : Option (List Str)) (yF : Option (Nat × Nat)),
      is.good = false →
        s.populate is t cols aF mF yF = (s, some Err.precondition)) ∧
    (∀ (s : Areas) (cols : Cols) (aF mF : Option (List Str))
        (yF : Option (Nat × Nat)),
      s.populate ⟨true, [], .error ()⟩ .AuthorityCodeCSV cols aF mF yF
          = (s, some Err.malformed) ∧
      s.populate ⟨true, [], .error ()⟩ .WelshStatsJSON cols aF mF yF
          = (s, some Err.malformed) ∧
      s.populate ⟨true, [], .error ()⟩ .AuthorityByYearCSV cols aF mF yF
          = (s, some Err.malformed)) := by
  constructor
  · intro s is t cols aF mF yF h
    simp [Areas.populate, h]
  · intro s cols aF mF yF
    exact ⟨rfl, rfl, rfl⟩

/-- Witness for the amended C7 on a not-good stream. -/
theorem claimC7_witness :
    (IStream.mk false [] (.error ())).good = false ∧
    Areas.empty.populate ⟨false, [], .error ()⟩ .WelshStatsJSON [] none none none
      = (Areas.empty, some Err.precondition) :=
  ⟨rfl, claimC7_amended_stream_pre_check.1 Areas.empty ⟨false, [], .error ()⟩
      .WelshStatsJSON [] none none none rfl⟩

/-! ### Claim C5 -/

/-- Claim C5: a null or empty token-set filter accepts everything; a
non-empty set accepts a candidate iff some (case-insensitive) token equals
the lowercased candidate, or — only with enhanced matching — some token is
a substring of the lowercased candidate or of some lowercased string of the
auxiliary list.  Includes the spec's concrete example: `{"wales"}` with
enhanced matching accepts code `"W06000015"` with auxiliary names
`["Vale of Wales"]` but not with `["England"]`. -/
theorem claimC5_token_filter_semantics :
    (∀ (f : Option (List Str)) (x : Str) (enh : Bool) (extra : List Str),
      checkFilterStr f x enh extra = true ↔
        (f = none ∨ f = some [] ∨
          ∃ fl, f = some fl ∧ ∃ t ∈ fl,
            (lowerStr t = lowerStr x ∨
              (enh = true ∧
                (hasSubstr (lowerStr x) (lowerStr t) = true ∨
                  ∃ nm ∈ extra, hasSubstr (lowerStr nm) (lowerStr t) = true))))) ∧
    checkFilterStr (some [strOf "wales"]) (strOf "W06000015") true
      [strOf "Vale of Wales"] = true ∧
    checkFilterStr (some [strOf "wales"]) (strOf "W06000015") true
      [strOf "England"] = false := by
  refine ⟨?_, by decide, by decide⟩
  intro f x enh extra
  cases f with
  | none => simp [checkFilterStr]
  | some fl =>
    cases fl with
    | nil => simp [checkFilterStr]
    | cons t0 ts =>
      constructor
      · intro h
        refine Or.inr (Or.inr ⟨t0 :: ts, rfl, ?_⟩)
        obtain ⟨t, ht, hb⟩ := List.any_eq_true.mp h
        simp only [Bool.or_eq_true, Bool.and_eq_true, beq_iff_eq,
          List.any_eq_true, List.mem_map] at hb
        refine ⟨t, ht, ?_⟩
        rcases hb with hb | ⟨henh, hb⟩
        · exact Or.inl hb
        · refine Or.inr ⟨henh, ?_⟩
          rcases hb with hb | ⟨nm', ⟨nm, hnm, rfl⟩, hsub⟩
          · exact Or.inl hb
          · exact Or.inr ⟨nm, hnm, hsub⟩
      · intro h
        rcases h with h | h | ⟨fl, hfl, t, ht, hcond⟩
        · exact absurd h (by simp)
        · exact absurd h (by simp)
        · injection hfl with hfl
          subst hfl
          refine List.any_eq_true.mpr ⟨t, ht, ?_⟩
          simp only [Bool.or_eq_true, Bool.and_eq_true, beq_iff_eq,
            List.any_eq_true, List.mem_map]
          rcases hcond with hc | ⟨henh, hc⟩
          · exact Or.inl hc
          · refine Or.inr ⟨henh, ?_⟩
            rcases hc with hc | ⟨nm, hnm, hsub⟩
            · exact Or.inl hc
            · exact Or.inr ⟨lowerStr nm, ⟨nm, hnm, rfl⟩, hsub⟩

/-! ### Claim C10 -/

/-- Claim C10: in the authority-by-year wide-table importer, a value cell
lying between two delimiters that is empty or non-numeric, in a column
whose year passes the year filter, aborts the entire source's load with the
malformed-content error (`stod` throws); whereas an empty trailing cell is
dropped by the `getline`-based comma splitter, so that year records no
value and the rest of the row is imported.  Stated as: (1) the column loop
aborts with the malformed error as soon as such a cell is reached; (2) on
the concrete source `code,2010,2011` / `W1,,6` the whole load aborts with
the malformed error leaving the container untouched; (3) the splitter
drops exactly the trailing empty cell of `W1,5,`; (4) loading
`code,2010,2011` / `W1,5,` succeeds, records 5 for 2010 and nothing for
2011. -/
theorem claimC10_wide_table_value_cells :
    (∀ (m : Measure) (yF : Option (Nat × Nat)) (hc : Str) (hcs : List Str)
        (v : Str) (vs : List Str) (y : Nat),
      parseNat hc = some y → checkFilterYear yF (y : Int) = true →
      parseDouble v = none →
        fillValues yF m (hc :: hcs) (v :: vs) = .error .malformed) ∧
    popAuthorityByYearCSV [strOf "code,2010,2011", strOf "W1,,6"]
        [(ColTag.AUTH_CODE, strOf "code"),
         (ColTag.SINGLE_MEASURE_CODE, strOf "dens"),
         (ColTag.SINGLE_MEASURE_NAME, strOf "Density")]
        none none none Areas.empty
      = (Areas.empty, some Err.malformed) ∧
    splitCells (strOf "W1,5,") = [strOf "W1", strOf "5"] ∧
    (popAuthorityByYearCSV [strOf "code,2010,2011", strOf "W1,5,"]
        [(ColTag.AUTH_CODE, strOf "code"),
         (ColTag.SINGLE_MEASURE_CODE, strOf "dens"),
         (ColTag.SINGLE_MEASURE_NAME, strOf "Density")]
        none none none Areas.empty).2 = none ∧
    priorValue (popAuthorityByYearCSV [strOf "code,2010,2011", strOf "W1,5,"]
        [(ColTag.AUTH_CODE, strOf "code"),
         (ColTag.SINGLE_MEASURE_CODE, strOf "dens"),
         (ColTag.SINGLE_MEASURE_NAME, strOf "Density")]
        none none none Areas.empty).1
      (strOf "W1") (strOf "dens") 2010 = some (EDouble.fin 5) ∧
    priorValue (popAuthorityByYearCSV [strOf "code,2010,2011", strOf "W1,5,"]
        [(ColTag.AUTH_CODE, strOf "code"),
         (ColTag.SINGLE_MEASURE_CODE, strOf "dens"),
         (ColTag.SINGLE_MEASURE_NAME, strOf "Density")]
        none none none Areas.empty).1
      (strOf "W1") (strOf "dens") 2011 = none := by
  refine ⟨?_, by decide, by decide, by decide, by decide, by decide⟩
  intro m yF hc hcs v vs y h1 h2 h3
  simp [fillValues, h1, h2, h3]

/-- Witness for C10's universal part: the empty cell of `W1,,6` under
header token `2010` with no year filter. -/
theorem claimC10_witness :
    parseNat (strOf "2010") = some 2010 ∧
    checkFilterYear none ((2010 : Nat) : Int) = true ∧
    parseDouble (strOf "") = none ∧
    fillValues none (Measure.make (strOf "dens") (strOf "Density"))
        [strOf "2010", strOf "2011"] [strOf "", strOf "6"]
      = .error .malformed :=
  ⟨by decide, by decide, by decide,
    claimC10_wide_table_value_cells.1 (Measure.make (strOf "dens") (strOf "Density"))
      none (strOf "2010") [strOf "2011"] (strOf "") [strOf "6"] 2010
      (by decide) (by decide) (by decide)⟩

/-! ### Claim C4 -/

/-- Claim C4: in both the authority-code CSV importer and the JSON
importer, a column-mismatch or malformed-content error raised while
processing a record aborts the whole source and leaves no partial data from
that record in the container.  Stated as: each per-record step either
succeeds (no error) or returns the container exactly as it was, and the row
loops stop at the first failing record, never touching the rest. -/
theorem claimC4_no_partial_record_on_error :
    (∀ (aF : Option (List Str)) (s : Areas) (row : Str),
      (stepAuthRow aF s row).1 = s ∨ (stepAuthRow aF s row).2 = none) ∧
    (∀ (cols : Cols) (aF mF : Option (List Str)) (yF : Option (Nat × Nat))
        (s : Areas) (rec : JRec),
      (stepJSON cols aF mF yF s rec).1 = s ∨
        (stepJSON cols aF mF yF s rec).2 = none) ∧
    (∀ (aF : Option (List Str)) (s : Areas) (r : Str) (rest : List Str),
      runAuthRows aF s (r :: rest) =
        match stepAuthRow aF s r with
        | (s', none) => runAuthRows aF s' rest
        | (s', some e) => (s', some e)) ∧
    (∀ (cols : Cols) (aF mF : Option (List Str)) (yF : Option (Nat × Nat))
        (s : Areas) (r : JRec) (rest : List JRec),
      runJSON cols aF mF yF s (r :: rest) =
        match stepJSON cols aF mF yF s r with
        | (s', none) => runJSON cols aF mF yF s' rest
        | (s', some e) => (s', some e)) := by
  refine ⟨?_, ?_, fun _ _ _ _ => rfl, fun _ _ _ _ _ _ _ => rfl⟩
  · intro aF s row
    unfold stepAuthRow
    rcases hc : splitCells row with _ | ⟨c0, _ | ⟨c1, _ | ⟨c2, rest⟩⟩⟩
    · left; rfl
    · left; rfl
    · left; rfl
    · rw [if_neg (by simp)]
      dsimp only
      by_cases hf : checkFilterStr aF c0 true [c1, c2]
      · rw [if_pos hf]
        rw [Area.setName_eq_of_valid _ _ _ validLang_engS]
        dsimp only
        rw [Area.setName_eq_of_valid _ _ _ validLang_cymS]
        dsimp only
        right
        apply Areas.setArea_snd_none
        intro p hp
        have hp2 : p ∈ [(lowerStr engS, c1), (lowerStr cymS, c2)] := by
          simpa [Area.make, upsert,
            (by decide : lowerStr cymS ≠ lowerStr engS)] using hp
        rcases List.mem_cons.mp hp2 with h | h
        · rw [h]
          show validLang (lowerStr engS) = true
          rw [lowerStr_engS]; exact validLang_engS
        · rw [List.mem_singleton] at h
          rw [h]
          show validLang (lowerStr cymS) = true
          rw [lowerStr_cymS]; exact validLang_cymS
      · rw [if_neg hf]; left; rfl
  · intro cols aF mF yF s rec
    unfold stepJSON
    cases hp : parseJSONRecord cols rec with
    | error e => left; rfl
    | ok tup =>
      obtain ⟨code, aname, mcode, mname, year, value⟩ := tup
      dsimp only
      by_cases hf : checkFilterStr aF code true (s.getExistingNames code ++ [aname])
      · rw [if_pos hf]
        rw [Area.setName_eq_of_valid _ _ _ validLang_engS]
        dsimp only
        right
        apply Areas.setArea_snd_none
        intro p hp2
        have hnm : (if checkFilterStr mF mcode false [] then
            ((Area.make code).setName engS aname
                |>.1.setMeasure mcode
                  (if checkFilterYear yF (year : Int) then
                    (Measure.make mcode mname).setValue year (.fin value)
                  else Measure.make mcode mname))
          else ((Area.make code).setName engS aname).1).names
            = [(engS, aname)] := by
          split <;>
            simp [Area.setMeasure_names, Area.setName_eq_of_valid _ _ _ validLang_engS,
              Area.make, lowerStr_engS, upsert]
        revert hp2
        split <;>
          · intro hp2
            simp only [Area.setMeasure_names, Area.setName_eq_of_valid _ _ _
              validLang_engS, Area.make, lowerStr_engS, upsert,
              List.mem_singleton] at hp2
            rw [hp2]; exact validLang_engS
      · rw [if_neg hf]; left; rfl

/-! ### Claim C6 -/

/-- Amended claim C6: in the JSON importer, a record that passes the area
and measure filters but whose year fails the importer's year check — which,
because the check drops the lower bound (see C1), happens only for years
above the filter's upper bound — still creates the Area and the Measure and
merges them into the container, but records no value for that year: the
stored value for `(code, measure, year)` after the step is exactly what it
was before.  (A below-range year, although outside the claimed inclusive
range, passes the buggy check and its value is recorded; see the
counterexample.) -/
theorem claimC6_year_filtered_record_creates_shell
    (cols : Cols) (aF mF : Option (List Str)) (yF : Option (Nat × Nat))
    (s : Areas) (rec : JRec) (code aname mcode mname : Str) (year : Nat)
    (value : ℚ)
    (hp : parseJSONRecord cols rec = .ok (code, aname, mcode, mname, year, value))
    (ha : checkFilterStr aF code true (s.getExistingNames code ++ [aname]) = true)
    (hm : checkFilterStr mF mcode false [] = true)
    (hy : checkFilterYear yF (year : Int) = false) :
    ∃ s' a' m',
      stepJSON cols aF mF yF s rec = (s', none) ∧
      alookup code s'.areas = some a' ∧
      alookup (lowerStr mcode) a'.measures = some m' ∧
      alookup year m'.values = priorValue s code mcode year := by
  have hyn : ¬ (checkFilterYear yF (year : Int) = true) := by simp [hy]
  unfold stepJSON
  rw [hp]
  dsimp only
  rw [if_pos ha, Area.setName_eq_of_valid _ _ _ validLang_engS]
  dsimp only [Area.make]
  rw [if_pos hm, if_neg hyn]
  have harea2 :
      (Area.mk code (upsert (lowerStr engS) aname []) []).setMeasure mcode
          (Measure.make mcode mname)
        = Area.mk code (upsert (lowerStr engS) aname [])
            [(lowerStr mcode, Measure.make mcode mname)] := by
    simp [Area.setMeasure, alookup, upsert]
  rw [harea2]
  have hvalid : ∀ p ∈ upsert (lowerStr engS) aname ([] : List (Str × Str)),
      validLang p.1 = true := by
    intro p hp2
    simp only [upsert, List.mem_singleton] at hp2
    rw [hp2]
    show validLang (lowerStr engS) = true
    rw [lowerStr_engS]; exact validLang_engS
  cases hex : alookup code s.areas with
  | none =>
    refine ⟨⟨upsert code (Area.mk code (upsert (lowerStr engS) aname [])
        [(lowerStr mcode, Measure.make mcode mname)]) s.areas⟩,
      Area.mk code (upsert (lowerStr engS) aname [])
        [(lowerStr mcode, Measure.make mcode mname)],
      Measure.make mcode mname, ?_, ?_, ?_, ?_⟩
    · simp [Areas.setArea, hex]
    · rw [alookup_upsert, if_pos rfl]
    · simp [alookup]
    · simp [Measure.make, alookup, priorValue, hex]
  | some ex =>
    have hmn2 := Area.mergeNames_snd_none
      (upsert (lowerStr engS) aname []) ex hvalid
    cases hmn : Area.mergeNames ex (upsert (lowerStr engS) aname []) with
    | mk aM e2 =>
      rw [hmn] at hmn2
      simp only at hmn2
      subst hmn2
      have hmrg : ex.merge (Area.mk code (upsert (lowerStr engS) aname [])
          [(lowerStr mcode, Measure.make mcode mname)])
          = (([((lowerStr mcode : Str), Measure.make mcode mname)]).foldl
              (fun acc p => acc.setMeasure p.1 p.2) aM, none) := by
        unfold Area.merge
        rw [hmn]
      have haM : aM.measures = ex.measures := by
        have := Area.mergeNames_measures (upsert (lowerStr engS) aname []) ex
        rw [hmn] at this
        exact this
      have hlow1 : ∀ p ∈ [((lowerStr mcode : Str), Measure.make mcode mname)],
          lowerStr p.1 = p.1 := by
        intro p hp2
        rw [List.mem_singleton] at hp2
        rw [hp2]
        exact lowerStr_idem mcode
      have hnd1 : (([((lowerStr mcode : Str), Measure.make mcode mname)]).map
          Prod.fst).Nodup := by simp
      have hlook1 : alookup (lowerStr mcode)
          [((lowerStr mcode : Str), Measure.make mcode mname)]
            = some (Measure.make mcode mname) := by simp [alookup]
      have hfold := foldl_setMeasure_of_some
        [((lowerStr mcode : Str), Measure.make mcode mname)] aM (lowerStr mcode)
        (Measure.make mcode mname) hlow1 hnd1 hlook1
      rw [haM] at hfold
      cases hexm : alookup (lowerStr mcode) ex.measures with
      | none =>
        rw [hexm] at hfold
        dsimp only at hfold
        refine ⟨⟨upsert code (List.foldl (fun acc p => acc.setMeasure p.1 p.2) aM
            [((lowerStr mcode : Str), Measure.make mcode mname)]) s.areas⟩,
          List.foldl (fun acc p => acc.setMeasure p.1 p.2) aM
            [((lowerStr mcode : Str), Measure.make mcode mname)],
          Measure.make mcode mname, ?_, ?_, ?_, ?_⟩
        · simp only [Areas.setArea, hex, hmrg]
        · rw [alookup_upsert, if_pos rfl]
        · exact hfold
        · simp [Measure.make, alookup, priorValue, hex, hexm]
      | some m₀ =>
        rw [hexm] at hfold
        dsimp only at hfold
        refine ⟨⟨upsert code (List.foldl (fun acc p => acc.setMeasure p.1 p.2) aM
            [((lowerStr mcode : Str), Measure.make mcode mname)]) s.areas⟩,
          List.foldl (fun acc p => acc.setMeasure p.1 p.2) aM
            [((lowerStr mcode : Str), Measure.make mcode mname)],
          m₀.merge (Measure.make mcode mname), ?_, ?_, ?_, ?_⟩
        · simp only [Areas.setArea, hex, hmrg]
        · rw [alookup_upsert, if_pos rfl]
        · exact hfold
        · rw [Measure.merge_values_of_none _ _ _ (by simp [Measure.make, alookup])]
          simp [priorValue, hex, hexm]

/-- Concrete JSON record with year 2009 for the C6 counterexample. -/
def c6recBelow : JRec :=
  [(strOf "c", JVal.jstr (strOf "W1")), (strOf "n", JVal.jstr (strOf "Cardiff")),
   (strOf "y", JVal.jstr (strOf "2009")), (strOf "v", JVal.jnum 7)]

/-- Counterexample to claim C6 as stated: with the year filter (2010, 2012)
a record carrying year 2009 — outside the inclusive range, since
2009 < 2010 — is accepted by the importer's year check (the check drops the
lower bound, see C1), so `setValue` runs and the container records the
value 7 for year 2009, contradicting the claim that no value is recorded
for a year outside the range. -/
theorem claimC6_counterexample_below_range_year :
    (2009 < 2010) ∧
    checkFilterYear (some (2010, 2012)) ((2009 : Nat) : Int) = true ∧
    (stepJSON
      [(ColTag.AUTH_CODE, strOf "c"), (ColTag.AUTH_NAME_ENG, strOf "n"),
       (ColTag.SINGLE_MEASURE_CODE, strOf "dens"),
       (ColTag.SINGLE_MEASURE_NAME, strOf "Density"),
       (ColTag.YEAR, strOf "y"), (ColTag.VALUE, strOf "v")]
      none none (some (2010, 2012)) Areas.empty c6recBelow).2 = none ∧
    priorValue (stepJSON
      [(ColTag.AUTH_CODE, strOf "c"), (ColTag.AUTH_NAME_ENG, strOf "n"),
       (ColTag.SINGLE_MEASURE_CODE, strOf "dens"),
       (ColTag.SINGLE_MEASURE_NAME, strOf "Density"),
       (ColTag.YEAR, strOf "y"), (ColTag.VALUE, strOf "v")]
      none none (some (2010, 2012)) Areas.empty c6recBelow).1
      (strOf "W1") (strOf "dens") 2009 = some (EDouble.fin 7) := by
  refine ⟨by decide, by decide, by decide, by decide⟩

/-- Concrete single-measure column mapping for the C6 witness. -/
def c6cols : Cols :=
  [(ColTag.AUTH_CODE, strOf "c"), (ColTag.AUTH_NAME_ENG, strOf "n"),
   (ColTag.SINGLE_MEASURE_CODE, strOf "dens"),
   (ColTag.SINGLE_MEASURE_NAME, strOf "Density"),
   (ColTag.YEAR, strOf "y"), (ColTag.VALUE, strOf "v")]

/-- Concrete JSON record for the C6 witness (year 2013, outside the range
filter (2010, 2012)). -/
def c6rec : JRec :=
  [(strOf "c", JVal.jstr (strOf "W1")), (strOf "n", JVal.jstr (strOf "Cardiff")),
   (strOf "y", JVal.jstr (strOf "2013")), (strOf "v", JVal.jnum 7)]

/-- Witness for C6 on a fresh container with the year filter (2010, 2012)
rejecting year 2013. -/
theorem claimC6_witness :
    parseJSONRecord c6cols c6rec
      = .ok (strOf "W1", strOf "Cardiff", strOf "dens", strOf "Density", 2013, 7) ∧
    checkFilterStr none (strOf "W1") true
      (Areas.empty.getExistingNames (strOf "W1") ++ [strOf "Cardiff"]) = true ∧
    checkFilterStr none (strOf "dens") false [] = true ∧
    checkFilterYear (some (2010, 2012)) ((2013 : Nat) : Int) = false ∧
    ∃ s' a' m',
      stepJSON c6cols none none (some (2010, 2012)) Areas.empty c6rec = (s', none) ∧
      alookup (strOf "W1") s'.areas = some a' ∧
      alookup (lowerStr (strOf "dens")) a'.measures = some m' ∧
      alookup 2013 m'.values
        = priorValue Areas.empty (strOf "W1") (strOf "dens") 2013 :=
  ⟨by rfl, by rfl, by rfl, by decide,
    claimC6_year_filtered_record_creates_shell c6cols none none (some (2010, 2012))
      Areas.empty c6rec (strOf "W1") (strOf "Cardiff") (strOf "dens")
      (strOf "Density") 2013 7 (by rfl) (by rfl) (by rfl) (by decide)⟩

/-! ### Claim C3 -/

/-- Counterexample to claim C3 as stated: on a shared measure-map key the
result does not take the incoming entity's value.  Merging an Area holding
measure `m` with `{2000 ↦ 1}` with an incoming Area holding measure `m`
with `{2001 ↦ 2}` stores the recursive merge (both years, incoming label),
not the incoming Measure. -/
theorem claimC3_counterexample :
    alookup (strOf "m")
        ((Area.merge
          (Area.mk (strOf "W1") []
            [(strOf "m", Measure.mk (strOf "m") (strOf "L0") [(2000, EDouble.fin 1)])])
          (Area.mk (strOf "W1") []
            [(strOf "m", Measure.mk (strOf "m") (strOf "L1") [(2001, EDouble.fin 2)])])).1).measures
      ≠ some (Measure.mk (strOf "m") (strOf "L1") [(2001, EDouble.fin 2)]) ∧
    alookup (strOf "m")
        ((Area.merge
          (Area.mk (strOf "W1") []
            [(strOf "m", Measure.mk (strOf "m") (strOf "L0") [(2000, EDouble.fin 1)])])
          (Area.mk (strOf "W1") []
            [(strOf "m", Measure.mk (strOf "m") (strOf "L1") [(2001, EDouble.fin 2)])])).1).measures
      = some (Measure.mk (strOf "m") (strOf "L1")
          [(2000, EDouble.fin 1), (2001, EDouble.fin 2)]) := by
  decide

/-- Amended claim C3: merging an incoming entity into an existing one
never removes any key: the result's name map, measure map, and (inside each
merged Measure) year-value map contain every key of both sides.  On shared
keys the incoming side wins entry-by-entry — the name map and the
year-value map take the incoming value verbatim, and a merged Measure's
label is always the incoming label — but on a shared measure-map key the
stored value is the recursive merge of the existing and incoming Measures
(incoming label, year maps unioned with incoming precedence), not the
incoming Measure itself.  The hypotheses are the invariants every
API-constructed Area satisfies: name keys are valid lowercase language
codes, measure keys are lowercase, and map keys are unique. -/
theorem claimC3_amended_merge_union (lhs rhs : Area)
    (hval : ∀ p ∈ rhs.names, validLang p.1 = true)
    (hlowN : ∀ p ∈ rhs.names, lowerStr p.1 = p.1)
    (hndN : (rhs.names.map Prod.fst).Nodup)
    (hlowM : ∀ p ∈ rhs.measures, lowerStr p.1 = p.1)
    (hndM : (rhs.measures.map Prod.fst).Nodup) :
    ∃ merged, lhs.merge rhs = (merged, none) ∧
      (∀ q v, alookup q rhs.names = some v → alookup q merged.names = some v) ∧
      (∀ q, alookup q rhs.names = none →
        alookup q merged.names = alookup q lhs.names) ∧
      (∀ q m, alookup q rhs.measures = some m →
        alookup q merged.measures =
          (match alookup q lhs.measures with
           | some m₀ => some (m₀.merge m)
           | none => some m)) ∧
      (∀ q, alookup q rhs.measures = none →
        alookup q merged.measures = alookup q lhs.measures) ∧
      (∀ m₀ m₁ : Measure, (m₀.merge m₁).label = m₁.label) ∧
      (∀ (m₀ m₁ : Measure) (y : Nat) (v : EDouble),
        (m₁.values.map Prod.fst).Nodup → alookup y m₁.values = some v →
          alookup y (m₀.merge m₁).values = some v) ∧
      (∀ (m₀ m₁ : Measure) (y : Nat), alookup y m₁.values = none →
        alookup y (m₀.merge m₁).values = alookup y m₀.values) := by
  have hmn2 := Area.mergeNames_snd_none rhs.names lhs hval
  cases hmn : Area.mergeNames lhs rhs.names with
  | mk aM e =>
    rw [hmn] at hmn2
    simp only at hmn2
    subst hmn2
    have haM : aM.measures = lhs.measures := by
      have h2 := Area.mergeNames_measures rhs.names lhs
      rw [hmn] at h2
      exact h2
    have hmrg : lhs.merge rhs
        = (rhs.measures.foldl (fun acc p => acc.setMeasure p.1 p.2) aM, none) := by
      unfold Area.merge
      rw [hmn]
    refine ⟨_, hmrg, ?_, ?_, ?_, ?_,
      Measure.merge_label, Measure.merge_values_of_some, Measure.merge_values_of_none⟩
    · intro q v hq
      rw [foldl_setMeasure_names]
      have h2 := Area.mergeNames_names_of_some rhs.names lhs q v hval hlowN hndN hq
      rw [hmn] at h2
      exact h2
    · intro q hq
      rw [foldl_setMeasure_names]
      have hnotmem : q ∉ rhs.names.map Prod.fst := (alookup_eq_none_iff _ _).mp hq
      have h2 := Area.mergeNames_names_of_not_mem rhs.names lhs q hval hlowN hnotmem
      rw [hmn] at h2
      exact h2
    · intro q m hq
      have h2 := foldl_setMeasure_of_some rhs.measures aM q m hlowM hndM hq
      rw [haM] at h2
      exact h2
    · intro q hq
      have hnotmem : q ∉ rhs.measures.map Prod.fst := (alookup_eq_none_iff _ _).mp hq
      have h2 := foldl_setMeasure_of_not_mem rhs.measures aM q hlowM hnotmem
      rw [haM] at h2
      exact h2

/-- Concrete existing Area for the C3 witness. -/
def c3lhs : Area :=
  Area.mk (strOf "W1") [(strOf "eng", strOf "Old")]
    [(strOf "m", Measure.mk (strOf "m") (strOf "L0") [(2000, EDouble.fin 1)])]

/-- Concrete incoming Area for the C3 witness. -/
def c3rhs : Area :=
  Area.mk (strOf "W1") [(strOf "eng", strOf "New"), (strOf "cym", strOf "Caerdydd")]
    [(strOf "m", Measure.mk (strOf "m") (strOf "L1") [(2001, EDouble.fin 2)])]

/-- Witness for the amended C3 on two concrete Areas sharing a name key and
a measure key. -/
theorem claimC3_witness :
    (∀ p ∈ c3rhs.names, validLang p.1 = true) ∧
    (∀ p ∈ c3rhs.names, lowerStr p.1 = p.1) ∧
    ((c3rhs.names.map Prod.fst).Nodup) ∧
    (∀ p ∈ c3rhs.measures, lowerStr p.1 = p.1) ∧
    ((c3rhs.measures.map Prod.fst).Nodup) ∧
    (∃ merged, c3lhs.merge c3rhs = (merged, none) ∧
      (∀ q v, alookup q c3rhs.names = some v → alookup q merged.names = some v) ∧
      (∀ q, alookup q c3rhs.names = none →
        alookup q merged.names = alookup q c3lhs.names) ∧
      (∀ q m, alookup q c3rhs.measures = some m →
        alookup q merged.measures =
          (match alookup q c3lhs.measures with
           | some m₀ => some (m₀.merge m)
           | none => some m)) ∧
      (∀ q, alookup q c3rhs.measures = none →
        alookup q merged.measures = alookup q c3lhs.measures) ∧
      (∀ m₀ m₁ : Measure, (m₀.merge m₁).label = m₁.label) ∧
      (∀ (m₀ m₁ : Measure) (y : Nat) (v : EDouble),
        (m₁.values.map Prod.fst).Nodup → alookup y m₁.values = some v →
          alookup y (m₀.merge m₁).values = some v) ∧
      (∀ (m₀ m₁ : Measure) (y : Nat), alookup y m₁.values = none →
        alookup y (m₀.merge m₁).values = alookup y m₀.values)) :=
  ⟨by decide, by decide, by decide, by decide, by decide,
    claimC3_amended_merge_union c3lhs c3rhs
      (by decide) (by decide) (by decide) (by decide) (by decide)⟩

end BethYwModel
